import Mathlib

/-!
Shallow embedding of the Gen-6 X/Y save parser (`api/parsers/gen6_xy.mjs`):
the PK6 record decoder (LCRNG keystream, block unshuffle, 16-bit checksum),
the region scorers, the autopick locator and the box-view assembler.
Buffers are modelled as `List Nat` of byte values; JavaScript 32-bit
arithmetic is modelled with explicit `% 2^32`; the IEEE-double scores are
modelled as `ℚ` (all values produced by the score formulas are small dyadic
rationals, which doubles represent exactly).
-/

set_option maxRecDepth 100000

set_option maxHeartbeats 1000000

namespace Gen6XY

/-- Layout constants (`XY` object in the source). -/
def XY.BOXES : Nat := 31

/-- Slots per box (`XY.SLOTS_PER_BOX`). -/
def XY.SLOTS_PER_BOX : Nat := 30

/-- Bytes per pk6 record (`XY.SLOT_SIZE`, 0xE8). -/
def XY.SLOT_SIZE : Nat := 232

/-- `XY.BOXES * XY.SLOTS_PER_BOX`, the 930-slot grid size. -/
def totalSlots : Nat := XY.BOXES * XY.SLOTS_PER_BOX

/-- GameFreak LCRNG step: `(Math.imul(seed, 0x41c64e6d) + 0x6073) >>> 0`.
On uint32 inputs this equals `(seed * 0x41c64e6d + 0x6073) mod 2^32`;
the `mod` here also absorbs the `seed >>> 0` coercion at the call site. -/
def lcrng_next (seed : Nat) : Nat := (seed * 0x41c64e6d + 0x6073) % 4294967296

/-- The 24-entry block-order permutation table `ORDERS` of `gen6_xy.mjs`. -/
def ORDERS : List (List Nat) :=
  [[0, 1, 2, 3], [0, 1, 3, 2], [0, 2, 1, 3], [0, 2, 3, 1], [0, 3, 1, 2], [0, 3, 2, 1],
   [1, 0, 2, 3], [1, 0, 3, 2], [2, 0, 1, 3], [3, 0, 1, 2], [1, 2, 0, 3], [1, 3, 0, 2],
   [2, 1, 0, 3], [3, 1, 0, 2], [2, 1, 3, 0], [3, 1, 2, 0], [2, 3, 0, 1], [3, 2, 0, 1],
   [1, 2, 3, 0], [1, 3, 2, 0], [2, 3, 1, 0], [3, 2, 1, 0], [3, 0, 2, 1], [2, 0, 3, 1]]

/-- `Buffer.readUInt8`: in-range reads never hit the default. -/
def readUInt8 (buf : List Nat) (i : Nat) : Nat := buf.getD i 0

/-- `Buffer.readUInt16LE`. -/
def readUInt16LE (buf : List Nat) (i : Nat) : Nat :=
  buf.getD i 0 + 256 * buf.getD (i + 1) 0

/-- `Buffer.readUInt32LE`. -/
def readUInt32LE (buf : List Nat) (i : Nat) : Nat :=
  buf.getD i 0 + 256 * buf.getD (i + 1) 0 + 65536 * buf.getD (i + 2) 0 +
    16777216 * buf.getD (i + 3) 0

/-- `decrypt224`: decrypt the 224-byte payload word by word with the
EC-seeded LCRNG; each 16-bit LE word is XORed with the keystream's upper
16 bits (`(seed >>> 16) & 0xffff`). The source loop runs over a fixed
224-byte buffer; this recursion is identical on even-length inputs. -/
def decrypt224 : List Nat → Nat → List Nat
  | a :: b :: rest, seed =>
    let s := lcrng_next seed
    let key := s / 65536 % 65536
    let w := Nat.xor (a + 256 * b) key
    w % 256 :: w / 256 % 256 :: decrypt224 rest s
  | rest, _ => rest

/-- `unshuffleBlocks`: rearrange the four 56-byte sub-blocks back into
logical A,B,C,D order, the order row selected by `ec % 24`
(`Math.abs` is a no-op on uint32 values, and `ec % 24 < 24` means the
table default is never consulted). The source's `for logical` loop is
unrolled into the four appended reads. -/
def unshuffleBlocks (decrypted224 : List Nat) (ec : Nat) : List Nat :=
  let blocks := [decrypted224.take 56, (decrypted224.drop 56).take 56,
                 (decrypted224.drop 112).take 56, (decrypted224.drop 168).take 56]
  let order := ORDERS.getD (ec % 24) [0, 1, 2, 3]
  blocks.getD (order.indexOf 0) [] ++ blocks.getD (order.indexOf 1) [] ++
    blocks.getD (order.indexOf 2) [] ++ blocks.getD (order.indexOf 3) []

/-- `sum16le`'s loop: running 16-bit LE word sum kept `& 0xffff`. -/
def sum16leGo : List Nat → Nat → Nat
  | a :: b :: rest, sum => sum16leGo rest ((sum + (a + 256 * b)) % 65536)
  | _, sum => sum % 65536

/-- `sum16le`: little-endian 16-bit checksum of a 224-byte buffer. -/
def sum16le (buf : List Nat) : Nat := sum16leGo buf 0

/-- Plain (unreduced) 16-bit LE word sum, used to state checksum facts. -/
def wsum : List Nat → Nat
  | a :: b :: rest => a + 256 * b + wsum rest
  | _ => 0

/-- The decoded record of `decodePK6` (the display-only `preview` string and
sha1 `hash` fields are omitted: no downstream logic reads them). -/
structure PK6 where
  checksumOK : Bool
  species : Nat
  nature : Nat
  pid : Nat
  tid : Nat
  sid : Nat
  shiny : Bool
deriving DecidableEq, Repr

/-- `decodePK6`: minimal decode of a single 232-byte PK6 slice.
The source guards `!slotBuf || slotBuf.length < XY.SLOT_SIZE`. -/
def decodePK6 (slotBuf : List Nat) : Option PK6 :=
  if slotBuf.length < XY.SLOT_SIZE then none
  else
    let ec := readUInt32LE slotBuf 0x00
    let checksum := readUInt16LE slotBuf 0x04
    let enc224 := (slotBuf.drop 0x08).take 224
    let dec := decrypt224 enc224 ec
    let data := unshuffleBlocks dec ec
    let calcSum := sum16le data
    let checksumOK := calcSum == checksum
    let pid := readUInt32LE data 0x00
    let species := readUInt16LE data 0x08
    let nature := readUInt8 data 0x1c
    let tid := readUInt16LE data 0x0c
    let sid := readUInt16LE data 0x0e
    let shinyXor := Nat.xor (Nat.xor (Nat.xor (pid % 65536) (pid / 65536)) tid) sid % 65536
    let shiny : Bool := shinyXor < 16
    some { checksumOK := checksumOK, species := species, nature := nature,
           pid := pid, tid := tid, sid := sid, shiny := shiny }

/-- `isAllZero` from the source: true iff every byte is zero. -/
def isAllZero (buf : List Nat) : Bool := buf.all (fun b => b == 0)

/-- `buf.subarray(start, end)` for slot `i` of the region at `offset`. -/
def sliceAt (buf : List Nat) (offset i : Nat) : List Nat :=
  (buf.drop (offset + i * XY.SLOT_SIZE)).take XY.SLOT_SIZE

/-- The `i`-th 56-byte sub-block of a 224-byte payload. -/
def subBlock (l : List Nat) (i : Nat) : List Nat := (l.drop (56 * i)).take 56

/-- Position of logical block `j` in the table row selected by `ec`
(the source's `order.indexOf(logical)`). -/
def orderIndex (ec j : Nat) : Nat := (ORDERS.getD (ec % 24) [0, 1, 2, 3]).indexOf j

/-- The mutable counters of `scoreXYRegion`'s loop. -/
structure XYCounts where
  ok : Nat
  zeros : Nat
  bad : Nat
  shinyCount : Nat
  plausibleSpecies : Nat
deriving DecidableEq, Repr

/-- The slot loop of `scoreXYRegion`. The first argument is fuel, always
called with `totalSlots`, an upper bound on the remaining iterations since
`i` increases by 1 per step; the loop body is the source's, including the
out-of-bounds break that charges `totalSlots - i` bad slots. `decodePK6`
is total, so the source's `try/catch` dead arm needs no model. -/
def scoreXYGo (buf : List Nat) (offset : Nat) : Nat → Nat → XYCounts → XYCounts
  | 0, _, c => c
  | fuel + 1, i, c =>
    if i < totalSlots then
      if offset + i * XY.SLOT_SIZE + XY.SLOT_SIZE > buf.length then
        { c with bad := c.bad + (totalSlots - i) }
      else
        let slice := sliceAt buf offset i
        if isAllZero slice then
          scoreXYGo buf offset fuel (i + 1) { c with zeros := c.zeros + 1 }
        else
          match decodePK6 slice with
          | some d =>
            if d.checksumOK then
              scoreXYGo buf offset fuel (i + 1)
                { c with
                  ok := c.ok + 1
                  shinyCount := c.shinyCount + (if d.shiny then 1 else 0)
                  plausibleSpecies := c.plausibleSpecies +
                    (if 1 ≤ d.species ∧ d.species ≤ 721 then 1 else 0) }
            else
              scoreXYGo buf offset fuel (i + 1) { c with bad := c.bad + 1 }
          | none => scoreXYGo buf offset fuel (i + 1) { c with bad := c.bad + 1 }
    else c

/-- The result object of `scoreXYRegion`. -/
structure ScoreResult where
  score : ℚ
  ok : Nat
  zeros : Nat
  bad : Nat
  plausibleSpecies : Nat
  shinyCount : Nat
deriving DecidableEq, Repr

/-- The weighted score `(ok*2) + (plausibleSpecies*1) + (shinyCount*0.25)
- (bad*0.5)`; these IEEE doubles are exact on all reachable values, so `ℚ`
models them exactly. -/
def scRat (c : XYCounts) : ℚ :=
  (c.ok : ℚ) * 2 + (c.plausibleSpecies : ℚ) * 1 + (c.shinyCount : ℚ) * 0.25 -
    (c.bad : ℚ) * 0.5

/-- `scoreXYRegion`: full scorer over all 31*30 slots. -/
def scoreXYRegion (buf : List Nat) (offset : Nat) : ScoreResult :=
  let c := scoreXYGo buf offset totalSlots 0 ⟨0, 0, 0, 0, 0⟩
  { score := scRat c, ok := c.ok, zeros := c.zeros, bad := c.bad,
    plausibleSpecies := c.plausibleSpecies, shinyCount := c.shinyCount }

/-- A slot of the box view: the source pushes either
`{ slot, empty: true }` or the full mon object (whose `checksumOK` field
is the literal `true`); display-only `preview`/`hash` are omitted. -/
inductive MonView where
  | emptySlot (slot : Nat)
  | mon (slot : Nat) (species : Nat) (nature : Nat) (shiny : Bool) (pid : Nat)
      (tid : Nat) (sid : Nat) (checksumOK : Bool)
deriving DecidableEq, Repr

/-- `isValidMon` from `readBoxes` (the `typeof ... === "number"` checks are
always true in the model). A `none` argument models a `null` decode. -/
def isValidMon : Option PK6 → Bool
  | none => false
  | some d =>
    d.checksumOK && decide (1 ≤ d.species) && decide (d.species ≤ 721) &&
      decide (d.pid ≠ 0)

/-- One slot of `readBoxes`'s inner loop: bounds check, inline nonzero
scan, decode, plausibility filter; everything failing the filter is
reported as an empty slot. -/
def slotView (buf : List Nat) (off b s : Nat) : MonView :=
  let idx := b * XY.SLOTS_PER_BOX + s
  if off + idx * XY.SLOT_SIZE + XY.SLOT_SIZE > buf.length then .emptySlot (s + 1)
  else
    let slice := sliceAt buf off idx
    if slice.any (fun x => x != 0) then
      match decodePK6 slice with
      | some d =>
        if isValidMon (some d) then
          .mon (s + 1) d.species d.nature d.shiny d.pid d.tid d.sid true
        else .emptySlot (s + 1)
      | none => .emptySlot (s + 1)
    else .emptySlot (s + 1)

/-- `String(n).padStart(2, "0")` as used for box names (inputs are 1..31). -/
def padTwo (n : Nat) : String :=
  let s := toString n
  if s.length < 2 then "0" ++ s else s

/-- One box object of `readBoxes` (`id`, `name`, 30 slot entries). -/
structure BoxView where
  id : String
  name : String
  mons : List MonView
deriving DecidableEq, Repr

/-- The value returned by `readBoxes` (scan diagnostics `debug`/`region`
are omitted: they replay the locator outputs already modelled). -/
structure BoxesResult where
  game : String
  generation : String
  boxes : List BoxView
  notes : String
  offset : Option Nat
deriving DecidableEq, Repr

/-- Does a built box contain a mon entry (the source's `boxHasMon` flag)? -/
def boxHasMon (mons : List MonView) : Bool :=
  mons.any (fun m => match m with | .mon .. => true | .emptySlot _ => false)

/-- Counters of the fast sampling scorer `scoreXYRegionFast`. -/
structure FastCounts where
  ok : Nat
  bad : Nat
  plausibleSpecies : Nat
deriving DecidableEq, Repr

/-- Result object of `scoreXYRegionFast`. -/
structure FastResult where
  score : ℚ
  ok : Nat
  bad : Nat
  plausibleSpecies : Nat
deriving DecidableEq, Repr

/-- Loop of `scoreXYRegionFast`: sample every `stride`-th slot, heavy +5
bad penalty and stop when out of bounds, stop after `earlyOut` bad slots.
Fuel `totalSlots` is never exhausted for the strides (10, 12) used by all
call sites. -/
def scoreFastGo (buf : List Nat) (offset stride earlyOut : Nat) :
    Nat → Nat → FastCounts → FastCounts
  | 0, _, c => c
  | fuel + 1, i, c =>
    if i < totalSlots then
      if offset + i * XY.SLOT_SIZE + XY.SLOT_SIZE > buf.length then
        { c with bad := c.bad + 5 }
      else
        let slice := sliceAt buf offset i
        if slice.any (fun x => x != 0) then
          match decodePK6 slice with
          | some d =>
            if d.checksumOK then
              scoreFastGo buf offset stride earlyOut fuel (i + stride)
                { c with
                  ok := c.ok + 1
                  plausibleSpecies := c.plausibleSpecies +
                    (if 1 ≤ d.species ∧ d.species ≤ 721 then 1 else 0) }
            else
              let c1 := { c with bad := c.bad + 1 }
              if earlyOut ≤ c1.bad then c1
              else scoreFastGo buf offset stride earlyOut fuel (i + stride) c1
          | none =>
            let c1 := { c with bad := c.bad + 1 }
            if earlyOut ≤ c1.bad then c1
            else scoreFastGo buf offset stride earlyOut fuel (i + stride) c1
        else scoreFastGo buf offset stride earlyOut fuel (i + stride) c
    else c

/-- `scoreXYRegionFast` with explicit `sampleStride`/`badEarlyOut`
(the source's option-object defaults are supplied at each call site). -/
def scoreXYRegionFast (buf : List Nat) (offset stride earlyOut : Nat) : FastResult :=
  let c := scoreFastGo buf offset stride earlyOut totalSlots 0 ⟨0, 0, 0⟩
  { score := (c.ok : ℚ) * 2 + (c.plausibleSpecies : ℚ) * 1 - (c.bad : ℚ) * 0.5,
    ok := c.ok, bad := c.bad, plausibleSpecies := c.plausibleSpecies }

/-- A coarse candidate `{ offset, coarse }` of `xyAutoPickOffsetFast`. -/
structure CoarseCand where
  offset : Nat
  coarse : FastResult
deriving DecidableEq, Repr

/-- A refined candidate `{ offset, full }` of `xyAutoPickOffsetFast`. -/
structure FullCand where
  offset : Nat
  full : ScoreResult
deriving DecidableEq, Repr

/-- Return value of `xyAutoPickOffsetFast`: the best refined candidate
(or null) and the refined top-10 list. -/
structure AutoPickResult where
  best : Option FullCand
  top : List FullCand
deriving DecidableEq, Repr

/-- Comparator `(a, b) => b.coarse.score - a.coarse.score` as the
"may precede" order of a stable sort: true iff the comparator is ≤ 0. -/
def coarseLe (a b : CoarseCand) : Bool := decide (b.coarse.score ≤ a.coarse.score)

/-- Comparator `(a, b) => b.full.score - a.full.score || a.full.bad -
b.full.bad`: score descending, ties by ascending bad count. -/
def refinedLe (a b : FullCand) : Bool :=
  decide (b.full.score < a.full.score) ||
    (decide (a.full.score = b.full.score) && decide (a.full.bad ≤ b.full.bad))

/-- The window `for (let d = -0x4000; d <= 0x4000; d += 0x80)` around a
base offset; JavaScript offsets can be negative, hence `Int`. -/
def sweep (h : Int) : List Int :=
  (List.range 257).map (fun k => h - 0x4000 + 0x80 * (k : Int))

/-- `xyAutoPickOffsetFast`: coarse scan around `hint` and the two
half-block-skewed bases, stable-sorted by coarse score (ES2019 `sort` is
stable and this comparator is consistent, so `mergeSort` is its exact
model), top 15 re-scored with the full scorer, stable-sorted by full score
then fewest bad slots. -/
def xyAutoPickOffsetFast (buf : List Nat) (hint : Int) : AutoPickResult :=
  let base := hint
  let bases : List Int := [base, base + 0x200, base - 0x200]
  let coarse := bases.flatMap (fun h =>
    (sweep h).filterMap (fun off =>
      if 0 ≤ off ∧ off < (buf.length : Int) then
        some { offset := off.toNat, coarse := scoreXYRegionFast buf off.toNat 12 30 }
      else none))
  let shortlist := (coarse.mergeSort coarseLe).take 15
  let refined := (shortlist.map (fun c =>
    ({ offset := c.offset, full := scoreXYRegion buf c.offset } : FullCand))).mergeSort refinedLe
  { best := refined.head?, top := refined.take 10 }

/-- A candidate `{ offset, ...fastResult }` pushed by `scanCandidates` and
by the `findBoxRegion` fallback sweep. -/
structure ScanCand where
  offset : Nat
  fast : FastResult
deriving DecidableEq, Repr

/-- Comparator `(a, b) => b.score - a.score || a.bad - b.bad` over the
spread fast-result fields. -/
def scanLe (a b : ScanCand) : Bool :=
  decide (b.fast.score < a.fast.score) ||
    (decide (a.fast.score = b.fast.score) && decide (a.fast.bad ≤ b.fast.bad))

/-- `scanCandidates`: stride-0x100 sweep up to `max(0, len - regionLen)`
(`Math.max(0, ...)` is exactly `Nat` truncated subtraction), keeping
candidates with `ok >= 8 && score > 8`, sorted, top 25. -/
def scanCandidates (buf : List Nat) : List ScanCand :=
  let mx := buf.length - XY.SLOT_SIZE * XY.BOXES * XY.SLOTS_PER_BOX
  let offs := (List.range (mx / 0x100 + 1)).map (fun k => k * 0x100)
  let results := offs.filterMap (fun off =>
    let r := scoreXYRegionFast buf off 10 30
    if 8 ≤ r.ok ∧ 8 < r.score then some { offset := off, fast := r } else none)
  (results.mergeSort scanLe).take 25

/-- `findBoxRegion` reduced to the offset it settles on (its `debug` field
only replays the candidate lists already modelled). A `some` override
models `Number.isInteger(o) && o >= 0`; the fallback sweeps ±0x4000 around
seed 0x22600 and its half-block skews when the broad scan is empty. -/
def findBoxRegionOffset (buf : List Nat) (overrideOffset : Option Nat) : Option Nat :=
  match overrideOffset with
  | some o => some o
  | none =>
    let cands := scanCandidates buf
    let cands := if cands.isEmpty then
        let pushes := ([0x22600, 0x22600 + 0x200, 0x22600 - 0x200] : List Int).flatMap
          (fun s => (sweep s).filterMap (fun off =>
            if 0 ≤ off then
              let r := scoreXYRegionFast buf off.toNat 12 30
              if 6 ≤ r.ok ∧ 6 < r.score then some { offset := off.toNat, fast := r }
              else none
            else none))
        (pushes.mergeSort scanLe).take 25
      else cands
    (cands.head?).map (fun c => c.offset)

/-- The 31-box grid built by `readBoxes`'s nested loops: box `b` carries
its id, display name and the 30 slot views. -/
def buildBoxes (buf : List Nat) (off : Nat) : List BoxView :=
  (List.range XY.BOXES).map (fun b =>
    ({ id := "box-" ++ toString (b + 1)
       name := "Box " ++ padTwo (b + 1)
       mons := (List.range XY.SLOTS_PER_BOX).map (fun s => slotView buf off b s) } : BoxView))

/-- `readBoxes`: locate (or take the override) offset, build the 31×30
grid of slot views, trim trailing all-empty boxes keeping at least one. -/
def readBoxes (buf : List Nat) (overrideOffset : Option Nat) : BoxesResult :=
  match findBoxRegionOffset buf overrideOffset with
  | none =>
    { game := "Pokémon X/Y (Citra)", generation := "6", boxes := [],
      notes := "XY region not found. Try scanning or setting an offset.",
      offset := none }
  | some off =>
    let boxes := buildBoxes buf off
    let lastNonEmptyBox : Int := boxes.enum.foldl
      (fun acc p => if boxHasMon p.2.mons then (p.1 : Int) else acc) (-1)
    let trimmed := if 0 ≤ lastNonEmptyBox then boxes.take (lastNonEmptyBox.toNat + 1)
      else boxes.take 1
    { game := "Pokémon X/Y (Citra)", generation := "6", boxes := trimmed,
      notes := if 0 ≤ lastNonEmptyBox then
          "Showing " ++ toString trimmed.length ++ " box(es)."
        else "No valid Pokémon found in boxes.",
      offset := some off }

/-- Plaintext payload for the synthetic test records: pid 17 (so the rare
xor is 17, not rare), species 25; 16-bit word sum 42. -/
def plainPayload : List Nat :=
  17 :: 0 :: 0 :: 0 :: 0 :: 0 :: 0 :: 0 :: 25 :: 0 :: List.replicate 214 0

/-- A synthetic valid slot: ec 0, declared checksum 42, and the payload
XORed with the ec-0 keystream (decryption is a self-inverse XOR, so
`decrypt224` doubles as the encrypter). -/
def vSlot : List Nat := [0, 0, 0, 0, 42, 0, 0, 0] ++ decrypt224 plainPayload 0

/-- A garbage slot: nonzero first byte, fails the checksum. -/
def gSlot : List Nat := 1 :: List.replicate 231 0

/-- Blob for the boundary counterexample: at offset 0 the region holds one
valid slot and 929 identical garbage slots; two more valid slots follow,
so the (out-of-bounds) region at offset 215760 starts with two valid
slots. -/
def cexBuf : List Nat := vSlot ++ (List.replicate 929 gSlot).flatten ++ (vSlot ++ vSlot)

/-- The record `decodePK6` extracts from `vSlot`. -/
def vRec : PK6 :=
  { checksumOK := true, species := 25, nature := 0, pid := 17, tid := 0, sid := 0,
    shiny := false }

/-- C1. The permutation table contains exactly 24 pairwise-distinct rows,
and as a set it is exactly the set of permutations of `[0,1,2,3]`. -/
theorem orders_table_complete :
    ORDERS.length = 24 ∧ ORDERS.Nodup ∧
      ∀ p : List Nat, p ∈ ORDERS ↔ p.Perm [0, 1, 2, 3] := by
  refine ⟨rfl, by decide, fun p => ?_⟩
  constructor
  · intro hp
    have h : ∀ q ∈ ORDERS, q.Perm [0, 1, 2, 3] := by decide
    exact h p hp
  · intro hp
    have hlen : p.length = 4 := hp.length_eq
    have hmem : ∀ x ∈ p, x ∈ [0, 1, 2, 3] := fun x hx => hp.mem_iff.mp hx
    have hnd : p.Nodup := hp.nodup_iff.mpr (by decide)
    have hball : ∀ a ∈ [0, 1, 2, 3], ∀ b ∈ [0, 1, 2, 3], ∀ c ∈ [0, 1, 2, 3],
        ∀ d ∈ [0, 1, 2, 3], [a, b, c, d].Nodup → [a, b, c, d] ∈ ORDERS := by decide
    match p, hlen with
    | [a, b, c, d], _ =>
      exact hball a (hmem a (by simp)) b (hmem b (by simp)) c (hmem c (by simp))
        d (hmem d (by simp)) hnd

/-- Witness for C1: evaluated at the identity row. -/
theorem orders_table_complete_witness :
    [0, 1, 2, 3] ∈ ORDERS ↔ [0, 1, 2, 3].Perm [0, 1, 2, 3] :=
  orders_table_complete.2.2 [0, 1, 2, 3]

/-! ### Reads restricted to the first 232 bytes -/

theorem getD_take_of_lt (l : List Nat) {n i : Nat} (h : i < n) (d : Nat) :
    (l.take n).getD i d = l.getD i d := by
  simp [List.getD_eq_getElem?_getD, List.getElem?_take_of_lt h]

theorem payload_take (l : List Nat) :
    ((l.take 232).drop 8).take 224 = (l.drop 8).take 224 := by
  have h1 : List.take 224 (List.drop 8 l) = List.drop 8 (List.take 232 l) :=
    List.take_drop 8 224 l
  have h2 : ((l.take 232).drop 8).length ≤ 224 := by
    simp [List.length_drop, List.length_take]
  rw [List.take_of_length_le h2, ← h1]

theorem readUInt16LE_take (l : List Nat) (i n : Nat) (h : i + 1 < n) :
    readUInt16LE (l.take n) i = readUInt16LE l i := by
  unfold readUInt16LE
  rw [getD_take_of_lt l (by omega : i < n), getD_take_of_lt l (by omega : i + 1 < n)]

theorem readUInt32LE_take (l : List Nat) (i n : Nat) (h : i + 3 < n) :
    readUInt32LE (l.take n) i = readUInt32LE l i := by
  unfold readUInt32LE
  rw [getD_take_of_lt l (by omega : i < n), getD_take_of_lt l (by omega : i + 1 < n),
    getD_take_of_lt l (by omega : i + 2 < n), getD_take_of_lt l (by omega : i + 3 < n)]

theorem decodePK6_eq_none_iff (slot : List Nat) :
    decodePK6 slot = none ↔ slot.length < XY.SLOT_SIZE := by
  rw [decodePK6]
  split
  · simp_all
  · simp_all

theorem decodePK6_some (slot : List Nat) (h : XY.SLOT_SIZE ≤ slot.length) :
    ∃ d, decodePK6 slot = some d := by
  cases hd : decodePK6 slot with
  | none => exact absurd ((decodePK6_eq_none_iff slot).mp hd) (by omega)
  | some d => exact ⟨d, rfl⟩

theorem decodePK6_take (slot : List Nat) :
    decodePK6 slot = decodePK6 (slot.take XY.SLOT_SIZE) := by
  show decodePK6 slot = decodePK6 (slot.take 232)
  by_cases h : slot.length < 232
  · have h' : (slot.take 232).length < 232 := by
      simp only [List.length_take]
      omega
    unfold decodePK6
    simp only [XY.SLOT_SIZE]
    rw [if_pos h, if_pos h']
  · have h' : ¬ (slot.take 232).length < 232 := by
      simp only [List.length_take]
      omega
    unfold decodePK6
    simp only [XY.SLOT_SIZE]
    rw [if_neg h, if_neg h',
      readUInt32LE_take slot 0 232 (by norm_num),
      readUInt16LE_take slot 4 232 (by norm_num),
      payload_take slot]

/-- C5 (amended): `decodePK6` returns `none` exactly when the slice is
shorter than 232 bytes, and for any longer input it decodes just the first
232 bytes — so no read ever goes past offset 231. -/
theorem decode_length_guard (slot : List Nat) :
    (decodePK6 slot = none ↔ slot.length < XY.SLOT_SIZE) ∧
      decodePK6 slot = decodePK6 (slot.take XY.SLOT_SIZE) :=
  ⟨decodePK6_eq_none_iff slot, decodePK6_take slot⟩

/-- Witness for C5 (amended), at a 232-byte all-zero slice. -/
theorem decode_length_guard_witness :
    (decodePK6 (List.replicate 232 0) = none ↔
        (List.replicate 232 0).length < XY.SLOT_SIZE) ∧
      decodePK6 (List.replicate 232 0) =
        decodePK6 ((List.replicate 232 0).take XY.SLOT_SIZE) :=
  decode_length_guard (List.replicate 232 0)

set_option maxRecDepth 20000 in
/-- C5 counterexample: a 233-byte slice does not have the record size,
yet the decoder returns a record rather than `none` (the source only
guards `slotBuf.length < XY.SLOT_SIZE`). -/
theorem decode_length_guard_counterexample :
    (List.replicate 233 0).length ≠ XY.SLOT_SIZE ∧
      decodePK6 (List.replicate 233 0) ≠ none := by decide

/-! ### The 16-bit word sum and its invariance under the block unshuffle -/

theorem sum16leGo_eq : ∀ (l : List Nat) (s : Nat), sum16leGo l s = (s + wsum l) % 65536
  | [], s => by simp [sum16leGo, wsum]
  | [a], s => by simp [sum16leGo, wsum]
  | a :: b :: rest, s => by
    rw [sum16leGo, wsum, sum16leGo_eq rest]
    omega

theorem sum16le_eq_wsum (l : List Nat) : sum16le l = wsum l % 65536 := by
  rw [sum16le, sum16leGo_eq, Nat.zero_add]

theorem wsum_append : ∀ (xs : List Nat), xs.length % 2 = 0 →
    ∀ ys, wsum (xs ++ ys) = wsum xs + wsum ys
  | [], _, ys => by simp [wsum]
  | [a], h, ys => by simp at h
  | a :: b :: rest, h, ys => by
    have h' : rest.length % 2 = 0 := by
      simp only [List.length_cons] at h
      omega
    rw [List.cons_append, List.cons_append, wsum, wsum, wsum_append rest h']
    omega

theorem decrypt224_length : ∀ (l : List Nat) (seed : Nat),
    (decrypt224 l seed).length = l.length
  | [], _ => rfl
  | [a], _ => rfl
  | a :: b :: rest, seed => by
    rw [decrypt224]
    simp only [List.length_cons]
    rw [decrypt224_length rest]

theorem subBlock_length (l : List Nat) (i : Nat) :
    (subBlock l i).length = min 56 (l.length - 56 * i) := by
  simp [subBlock]

theorem subBlock_even (l : List Nat) (h : l.length = 224) (i : Nat) :
    (subBlock l i).length % 2 = 0 := by
  rw [subBlock_length, h]
  omega

theorem orderIndex_perm (ec : Nat) :
    [orderIndex ec 0, orderIndex ec 1, orderIndex ec 2, orderIndex ec 3].Perm [0, 1, 2, 3] := by
  have hk : ec % 24 ∈ List.range 24 := List.mem_range.mpr (Nat.mod_lt _ (by norm_num))
  have h : ∀ k ∈ List.range 24,
      [(ORDERS.getD k [0, 1, 2, 3]).indexOf 0, (ORDERS.getD k [0, 1, 2, 3]).indexOf 1,
        (ORDERS.getD k [0, 1, 2, 3]).indexOf 2,
        (ORDERS.getD k [0, 1, 2, 3]).indexOf 3].Perm [0, 1, 2, 3] := by decide
  exact h _ hk

theorem blocks_getD (l : List Nat) (h : l.length = 224) :
    ∀ i, [l.take 56, (l.drop 56).take 56, (l.drop 112).take 56,
      (l.drop 168).take 56].getD i [] = subBlock l i
  | 0 => by show l.take 56 = subBlock l 0; simp [subBlock]
  | 1 => by show (l.drop 56).take 56 = subBlock l 1; simp [subBlock]
  | 2 => by show (l.drop 112).take 56 = subBlock l 2; simp [subBlock]
  | 3 => by show (l.drop 168).take 56 = subBlock l 3; simp [subBlock]
  | (n + 4) => by
    have h1 : l.drop (56 * (n + 4)) = [] := List.drop_eq_nil_of_le (by omega)
    simp only [subBlock, h1, List.take_nil]
    simp [List.getD]

theorem unshuffleBlocks_eq_subBlocks (l : List Nat) (h : l.length = 224) (ec : Nat) :
    unshuffleBlocks l ec =
      subBlock l (orderIndex ec 0) ++ subBlock l (orderIndex ec 1) ++
        subBlock l (orderIndex ec 2) ++ subBlock l (orderIndex ec 3) := by
  rw [unshuffleBlocks]
  simp only [orderIndex, blocks_getD l h]

theorem eq_subBlocks (l : List Nat) (h : l.length = 224) :
    l = subBlock l 0 ++ subBlock l 1 ++ subBlock l 2 ++ subBlock l 3 := by
  have e3 : subBlock l 3 = l.drop 168 :=
    List.take_of_length_le (by rw [List.length_drop, h])
  have e2 : subBlock l 2 ++ l.drop 168 = l.drop 112 := by
    have e21 : l.drop 168 = (l.drop 112).drop 56 := by rw [List.drop_drop]
    rw [e21]
    exact List.take_append_drop 56 (l.drop 112)
  have e1 : subBlock l 1 ++ l.drop 112 = l.drop 56 := by
    have e11 : l.drop 112 = (l.drop 56).drop 56 := by rw [List.drop_drop]
    rw [e11]
    exact List.take_append_drop 56 (l.drop 56)
  have e0 : subBlock l 0 ++ l.drop 56 = l := List.take_append_drop 56 l
  rw [List.append_assoc, List.append_assoc, e3, e2, e1, e0]

theorem wsum_unshuffleBlocks (l : List Nat) (ec : Nat) (h : l.length = 224) :
    wsum (unshuffleBlocks l ec) = wsum l := by
  rw [unshuffleBlocks_eq_subBlocks l h ec]
  have he : ∀ i, (subBlock l i).length % 2 = 0 := subBlock_even l h
  have happ : ∀ i0 i1 i2 i3 : Nat,
      wsum (subBlock l i0 ++ subBlock l i1 ++ subBlock l i2 ++ subBlock l i3) =
        wsum (subBlock l i0) + wsum (subBlock l i1) + wsum (subBlock l i2) +
          wsum (subBlock l i3) := by
    intro i0 i1 i2 i3
    have h0 := he i0
    have h1 := he i1
    have h2 := he i2
    rw [wsum_append _ (by rw [List.length_append, List.length_append]; omega),
      wsum_append _ (by rw [List.length_append]; omega), wsum_append _ h0]
  have hsum := (List.Perm.map (fun i => wsum (subBlock l i)) (orderIndex_perm ec)).sum_eq
  simp only [List.map_cons, List.map_nil, List.sum_cons, List.sum_nil, Nat.add_zero] at hsum
  rw [happ]
  conv_rhs => rw [eq_subBlocks l h]
  rw [happ]
  omega

/-- C3. For every 232-byte slice the decoder returns a record whose
`checksumOK` flag is true exactly when the 16-bit LE word sum (mod 65536)
of the decrypted 224-byte payload equals the declared checksum read at
offset 4 of the 8-byte header — stated on the decrypted payload itself,
before the block unshuffle, since the word sum is invariant under the
56-byte block permutation. -/
theorem checksum_from_decrypted_payload (slot : List Nat) (h : slot.length = XY.SLOT_SIZE) :
    ∃ r, decodePK6 slot = some r ∧
      (r.checksumOK = true ↔
        wsum (decrypt224 ((slot.drop 8).take 224) (readUInt32LE slot 0)) % 65536 =
          readUInt16LE slot 4) := by
  have hlt : ¬ slot.length < XY.SLOT_SIZE := by omega
  rw [decodePK6, if_neg hlt]
  refine ⟨_, rfl, ?_⟩
  have hplen : ((slot.drop 8).take 224).length = 224 := by
    rw [List.length_take, List.length_drop, h]
    decide
  have hdlen : (decrypt224 ((slot.drop 8).take 224) (readUInt32LE slot 0)).length = 224 := by
    rw [decrypt224_length, hplen]
  rw [beq_iff_eq, sum16le_eq_wsum, wsum_unshuffleBlocks _ _ hdlen]

/-- Witness for C3 at the all-zero 232-byte slice. -/
theorem checksum_from_decrypted_payload_witness :
    ∃ r, decodePK6 (List.replicate 232 0) = some r ∧
      (r.checksumOK = true ↔
        wsum (decrypt224 (((List.replicate 232 0 : List Nat).drop 8).take 224)
            (readUInt32LE (List.replicate 232 0) 0)) % 65536 =
          readUInt16LE (List.replicate 232 0) 4) :=
  checksum_from_decrypted_payload (List.replicate 232 0) rfl

/-- C9. The unshuffler's output is exactly the four 56-byte sub-blocks of
its 224-byte input, rearranged by a permutation of `[0,1,2,3]` (no block
dropped or duplicated); and when the selected row is the identity
permutation (`ec % 24 = 0`) the output equals the input. -/
theorem unshuffle_block_permutation (l : List Nat) (ec : Nat) (h : l.length = 224) :
    (∃ i0 i1 i2 i3 : Nat, [i0, i1, i2, i3].Perm [0, 1, 2, 3] ∧
        unshuffleBlocks l ec =
          subBlock l i0 ++ subBlock l i1 ++ subBlock l i2 ++ subBlock l i3) ∧
      (ec % 24 = 0 → unshuffleBlocks l ec = l) := by
  constructor
  · exact ⟨_, _, _, _, orderIndex_perm ec, unshuffleBlocks_eq_subBlocks l h ec⟩
  · intro h0
    rw [unshuffleBlocks_eq_subBlocks l h ec]
    simp only [orderIndex, h0]
    exact (eq_subBlocks l h).symm

/-- Witness for C9 at an all-zero payload with a non-identity selector. -/
theorem unshuffle_block_permutation_witness :
    (∃ i0 i1 i2 i3 : Nat, [i0, i1, i2, i3].Perm [0, 1, 2, 3] ∧
        unshuffleBlocks (List.replicate 224 0) 7 =
          subBlock (List.replicate 224 0) i0 ++ subBlock (List.replicate 224 0) i1 ++
            subBlock (List.replicate 224 0) i2 ++ subBlock (List.replicate 224 0) i3) ∧
      (7 % 24 = 0 → unshuffleBlocks (List.replicate 224 0) 7 = List.replicate 224 0) :=
  unshuffle_block_permutation (List.replicate 224 0) 7 rfl

/-! ### The full scorer's loop, step by step -/

theorem sliceAt_length (buf : List Nat) (off i : Nat)
    (h : off + i * XY.SLOT_SIZE + XY.SLOT_SIZE ≤ buf.length) :
    (sliceAt buf off i).length = XY.SLOT_SIZE := by
  rw [sliceAt, List.length_take, List.length_drop]
  simp only [XY.SLOT_SIZE] at h ⊢
  omega

theorem scoreXYGo_done (buf : List Nat) (off fuel i : Nat) (c : XYCounts)
    (h1 : ¬ i < totalSlots) : scoreXYGo buf off (fuel + 1) i c = c := by
  rw [scoreXYGo, if_neg h1]

theorem scoreXYGo_oob (buf : List Nat) (off fuel i : Nat) (c : XYCounts)
    (h1 : i < totalSlots) (h2 : buf.length < off + i * XY.SLOT_SIZE + XY.SLOT_SIZE) :
    scoreXYGo buf off (fuel + 1) i c = { c with bad := c.bad + (totalSlots - i) } := by
  rw [scoreXYGo, if_pos h1, if_pos (by omega)]

theorem scoreXYGo_zero_step (buf : List Nat) (off fuel i : Nat) (c : XYCounts)
    (h1 : i < totalSlots) (h2 : off + i * XY.SLOT_SIZE + XY.SLOT_SIZE ≤ buf.length)
    (h3 : isAllZero (sliceAt buf off i) = true) :
    scoreXYGo buf off (fuel + 1) i c =
      scoreXYGo buf off fuel (i + 1) { c with zeros := c.zeros + 1 } := by
  rw [scoreXYGo, if_pos h1, if_neg (by omega)]
  simp only [h3, if_true]

theorem scoreXYGo_ok_step (buf : List Nat) (off fuel i : Nat) (c : XYCounts) (d : PK6)
    (h1 : i < totalSlots) (h2 : off + i * XY.SLOT_SIZE + XY.SLOT_SIZE ≤ buf.length)
    (h3 : isAllZero (sliceAt buf off i) = false)
    (hd : decodePK6 (sliceAt buf off i) = some d) (h4 : d.checksumOK = true) :
    scoreXYGo buf off (fuel + 1) i c =
      scoreXYGo buf off fuel (i + 1)
        { c with
          ok := c.ok + 1
          shinyCount := c.shinyCount + (if d.shiny then 1 else 0)
          plausibleSpecies := c.plausibleSpecies +
            (if 1 ≤ d.species ∧ d.species ≤ 721 then 1 else 0) } := by
  rw [scoreXYGo, if_pos h1, if_neg (by omega)]
  simp only [h3, Bool.false_eq_true, if_false, hd, h4, if_true]

theorem scoreXYGo_bad_step (buf : List Nat) (off fuel i : Nat) (c : XYCounts) (d : PK6)
    (h1 : i < totalSlots) (h2 : off + i * XY.SLOT_SIZE + XY.SLOT_SIZE ≤ buf.length)
    (h3 : isAllZero (sliceAt buf off i) = false)
    (hd : decodePK6 (sliceAt buf off i) = some d) (h4 : d.checksumOK = false) :
    scoreXYGo buf off (fuel + 1) i c =
      scoreXYGo buf off fuel (i + 1) { c with bad := c.bad + 1 } := by
  rw [scoreXYGo, if_pos h1, if_neg (by omega)]
  simp only [h3, Bool.false_eq_true, if_false, hd, h4]

theorem scoreXYRegion_ok (buf : List Nat) (off : Nat) :
    (scoreXYRegion buf off).ok = (scoreXYGo buf off totalSlots 0 ⟨0, 0, 0, 0, 0⟩).ok := rfl

theorem scoreXYRegion_score (buf : List Nat) (off : Nat) :
    (scoreXYRegion buf off).score =
      scRat (scoreXYGo buf off totalSlots 0 ⟨0, 0, 0, 0, 0⟩) := rfl

theorem scRat_zeros (c : XYCounts) : scRat { c with zeros := c.zeros + 1 } = scRat c := by
  simp [scRat]

theorem scRat_bad (c : XYCounts) :
    scRat { c with bad := c.bad + 1 } = scRat c - 0.5 := by
  simp only [scRat]
  push_cast
  ring

/-- Score additivity in the starting counters: the loop only ever adds to
the counters, so the final score splits off the starting score. -/
theorem scRat_scoreXYGo (buf : List Nat) (off : Nat) :
    ∀ (fuel i : Nat) (c : XYCounts),
      scRat (scoreXYGo buf off fuel i c) =
        scRat c + scRat (scoreXYGo buf off fuel i ⟨0, 0, 0, 0, 0⟩) := by
  intro fuel
  induction fuel with
  | zero =>
    intro i c
    show scRat c = scRat c + scRat (⟨0, 0, 0, 0, 0⟩ : XYCounts)
    norm_num [scRat]
  | succ fuel ih =>
    intro i c
    by_cases h1 : i < totalSlots
    · by_cases h2 : off + i * XY.SLOT_SIZE + XY.SLOT_SIZE ≤ buf.length
      · by_cases h3 : isAllZero (sliceAt buf off i)
        · rw [scoreXYGo_zero_step buf off fuel i c h1 h2 h3,
            scoreXYGo_zero_step buf off fuel i ⟨0, 0, 0, 0, 0⟩ h1 h2 h3]
          conv_rhs => rw [ih]
          conv_lhs => rw [ih]
          simp only [scRat]
          push_cast
          ring
        · have h3' : isAllZero (sliceAt buf off i) = false := by
            simp only [Bool.not_eq_true] at h3
            exact h3
          obtain ⟨d, hd⟩ := decodePK6_some (sliceAt buf off i)
            (by rw [sliceAt_length buf off i h2])
          cases h4 : d.checksumOK with
          | true =>
            rw [scoreXYGo_ok_step buf off fuel i c d h1 h2 h3' hd h4,
              scoreXYGo_ok_step buf off fuel i ⟨0, 0, 0, 0, 0⟩ d h1 h2 h3' hd h4]
            conv_rhs => rw [ih]
            conv_lhs => rw [ih]
            simp only [scRat]
            push_cast
            ring
          | false =>
            rw [scoreXYGo_bad_step buf off fuel i c d h1 h2 h3' hd h4,
              scoreXYGo_bad_step buf off fuel i ⟨0, 0, 0, 0, 0⟩ d h1 h2 h3' hd h4]
            conv_rhs => rw [ih]
            conv_lhs => rw [ih]
            simp only [scRat]
            push_cast
            ring
      · rw [scoreXYGo_oob buf off fuel i c h1 (by omega),
          scoreXYGo_oob buf off fuel i ⟨0, 0, 0, 0, 0⟩ h1 (by omega)]
        simp only [scRat]
        push_cast
        ring
    · rw [scoreXYGo_done buf off fuel i c h1, scoreXYGo_done buf off fuel i ⟨0, 0, 0, 0, 0⟩ h1]
      norm_num [scRat]

/-- The scorer only looks at the blob through the slot slices: two blobs of
equal length with equal slices from `i` on score identically. -/
theorem scoreXYGo_congr (bufA bufB : List Nat) (off : Nat)
    (hlen : bufA.length = bufB.length) :
    ∀ (fuel i : Nat) (c : XYCounts),
      (∀ i', i ≤ i' → i' < totalSlots → sliceAt bufA off i' = sliceAt bufB off i') →
      scoreXYGo bufA off fuel i c = scoreXYGo bufB off fuel i c := by
  intro fuel
  induction fuel with
  | zero => intro i c _; rfl
  | succ fuel ih =>
    intro i c hag
    by_cases h1 : i < totalSlots
    · have hsl : sliceAt bufA off i = sliceAt bufB off i := hag i le_rfl h1
      by_cases h2 : off + i * XY.SLOT_SIZE + XY.SLOT_SIZE ≤ bufA.length
      · have h2B : off + i * XY.SLOT_SIZE + XY.SLOT_SIZE ≤ bufB.length := by omega
        have hag' : ∀ i', i + 1 ≤ i' → i' < totalSlots →
            sliceAt bufA off i' = sliceAt bufB off i' :=
          fun i' h h' => hag i' (by omega) h'
        by_cases h3 : isAllZero (sliceAt bufA off i)
        · rw [scoreXYGo_zero_step bufA off fuel i c h1 h2 h3,
            scoreXYGo_zero_step bufB off fuel i c h1 h2B (hsl ▸ h3), ih _ _ hag']
        · have h3' : isAllZero (sliceAt bufA off i) = false := by
            simp only [Bool.not_eq_true] at h3
            exact h3
          obtain ⟨d, hd⟩ := decodePK6_some (sliceAt bufA off i)
            (by rw [sliceAt_length bufA off i h2])
          cases h4 : d.checksumOK with
          | true =>
            rw [scoreXYGo_ok_step bufA off fuel i c d h1 h2 h3' hd h4,
              scoreXYGo_ok_step bufB off fuel i c d h1 h2B (hsl ▸ h3') (hsl ▸ hd) h4,
              ih _ _ hag']
          | false =>
            rw [scoreXYGo_bad_step bufA off fuel i c d h1 h2 h3' hd h4,
              scoreXYGo_bad_step bufB off fuel i c d h1 h2B (hsl ▸ h3') (hsl ▸ hd) h4,
              ih _ _ hag']
      · rw [scoreXYGo_oob bufA off fuel i c h1 (by omega),
          scoreXYGo_oob bufB off fuel i c h1 (by omega)]
    · rw [scoreXYGo_done bufA off fuel i c h1, scoreXYGo_done bufB off fuel i c h1]

/-- Up to an in-bounds slot `j`, two equal-length blobs with equal slices
below `j` drive the loop to `j` with the same intermediate counters. -/
theorem scoreXYGo_prefix (bufA bufB : List Nat) (off j : Nat)
    (hlen : bufA.length = bufB.length) (hj : j < totalSlots)
    (hin : off + j * XY.SLOT_SIZE + XY.SLOT_SIZE ≤ bufA.length)
    (hag : ∀ i', i' < j → sliceAt bufA off i' = sliceAt bufB off i') :
    ∀ (k fuel i : Nat) (c : XYCounts), i + k = j → k ≤ fuel →
      ∃ c', scoreXYGo bufA off fuel i c = scoreXYGo bufA off (fuel - k) j c' ∧
        scoreXYGo bufB off fuel i c = scoreXYGo bufB off (fuel - k) j c' := by
  intro k
  induction k with
  | zero =>
    intro fuel i c hij _
    obtain rfl : i = j := by omega
    exact ⟨c, rfl, rfl⟩
  | succ k ih =>
    intro fuel i c hij hk
    obtain ⟨f, rfl⟩ : ∃ f, fuel = f + 1 := ⟨fuel - 1, by omega⟩
    have hij' : i < j := by omega
    have h1 : i < totalSlots := by omega
    have h2 : off + i * XY.SLOT_SIZE + XY.SLOT_SIZE ≤ bufA.length := by
      have : i * XY.SLOT_SIZE ≤ j * XY.SLOT_SIZE := Nat.mul_le_mul_right _ (by omega)
      omega
    have h2B : off + i * XY.SLOT_SIZE + XY.SLOT_SIZE ≤ bufB.length := by omega
    have hsl : sliceAt bufA off i = sliceAt bufB off i := hag i hij'
    have hstep : ∀ c₁ : XYCounts,
        scoreXYGo bufA off f (i + 1) c₁ = scoreXYGo bufA off (f + 1 - (k + 1)) j c₁ →
        scoreXYGo bufB off f (i + 1) c₁ = scoreXYGo bufB off (f + 1 - (k + 1)) j c₁ →
        True := fun _ _ _ => trivial
    clear hstep
    by_cases h3 : isAllZero (sliceAt bufA off i)
    · obtain ⟨c', eA, eB⟩ := ih f (i + 1) { c with zeros := c.zeros + 1 } (by omega) (by omega)
      refine ⟨c', ?_, ?_⟩
      · rw [scoreXYGo_zero_step bufA off f i c h1 h2 h3, eA, Nat.succ_sub_succ]
      · rw [scoreXYGo_zero_step bufB off f i c h1 h2B (hsl ▸ h3), eB, Nat.succ_sub_succ]
    · have h3' : isAllZero (sliceAt bufA off i) = false := by
        simp only [Bool.not_eq_true] at h3
        exact h3
      obtain ⟨d, hd⟩ := decodePK6_some (sliceAt bufA off i)
        (by rw [sliceAt_length bufA off i h2])
      cases h4 : d.checksumOK with
      | true =>
        obtain ⟨c', eA, eB⟩ := ih f (i + 1)
          { c with
            ok := c.ok + 1
            shinyCount := c.shinyCount + (if d.shiny then 1 else 0)
            plausibleSpecies := c.plausibleSpecies +
              (if 1 ≤ d.species ∧ d.species ≤ 721 then 1 else 0) } (by omega) (by omega)
        refine ⟨c', ?_, ?_⟩
        · rw [scoreXYGo_ok_step bufA off f i c d h1 h2 h3' hd h4, eA, Nat.succ_sub_succ]
        · rw [scoreXYGo_ok_step bufB off f i c d h1 h2B (hsl ▸ h3') (hsl ▸ hd) h4, eB,
            Nat.succ_sub_succ]
      | false =>
        obtain ⟨c', eA, eB⟩ := ih f (i + 1) { c with bad := c.bad + 1 } (by omega) (by omega)
        refine ⟨c', ?_, ?_⟩
        · rw [scoreXYGo_bad_step bufA off f i c d h1 h2 h3' hd h4, eA, Nat.succ_sub_succ]
        · rw [scoreXYGo_bad_step bufB off f i c d h1 h2B (hsl ▸ h3') (hsl ▸ hd) h4, eB,
            Nat.succ_sub_succ]

/-- Core of the one-slot score-difference argument: if blob B differs from
blob A only in the in-range slot `j`, which is all-zero in A, and B's slot
`j` drives the loop through an update worth `δ`, then B's full score is
A's plus `δ`. -/
theorem score_delta_core (bufA bufB : List Nat) (off j : Nat) (δ : ℚ)
    (hlen : bufA.length = bufB.length) (hj : j < totalSlots)
    (hin : off + j * XY.SLOT_SIZE + XY.SLOT_SIZE ≤ bufA.length)
    (hag : ∀ i, i < totalSlots → i ≠ j → sliceAt bufA off i = sliceAt bufB off i)
    (hzA : isAllZero (sliceAt bufA off j) = true)
    (uB : XYCounts → XYCounts)
    (hstepB : ∀ fuel c, scoreXYGo bufB off (fuel + 1) j c = scoreXYGo bufB off fuel (j + 1) (uB c))
    (hdelta : ∀ c, scRat (uB c) = scRat c + δ) :
    (scoreXYRegion bufB off).score = (scoreXYRegion bufA off).score + δ := by
  obtain ⟨c', eA, eB⟩ := scoreXYGo_prefix bufA bufB off j hlen hj hin
    (fun i' h => hag i' (by omega) (by omega)) j totalSlots 0 ⟨0, 0, 0, 0, 0⟩
    (by omega) (by omega)
  obtain ⟨f, hf⟩ : ∃ f, totalSlots - j = f + 1 := ⟨totalSlots - j - 1, by omega⟩
  have stepA : scoreXYGo bufA off (f + 1) j c' =
      scoreXYGo bufA off f (j + 1) { c' with zeros := c'.zeros + 1 } :=
    scoreXYGo_zero_step bufA off f j c' hj hin hzA
  have stepB := hstepB f c'
  have hcong : scoreXYGo bufB off f (j + 1) (uB c') = scoreXYGo bufA off f (j + 1) (uB c') :=
    scoreXYGo_congr bufB bufA off hlen.symm f (j + 1) (uB c')
      (fun i' h h' => (hag i' h' (by omega)).symm)
  show scRat (scoreXYGo bufB off totalSlots 0 ⟨0, 0, 0, 0, 0⟩) =
    scRat (scoreXYGo bufA off totalSlots 0 ⟨0, 0, 0, 0, 0⟩) + δ
  rw [eA, eB, hf, stepA, stepB, hcong,
    scRat_scoreXYGo bufA off f (j + 1) (uB c'),
    scRat_scoreXYGo bufA off f (j + 1) { c' with zeros := c'.zeros + 1 },
    scRat_zeros, hdelta]
  ring

/-- C2 (amended). Holding every other slot fixed: filling one in-range,
otherwise all-zero slot with a valid, plausible-identity, non-rare record
raises the full region score by exactly 3.0 — the formula awards 2.0 for
the valid checksum plus 1.0 for the plausible identity, not 2.0 in total —
while filling it with an invalid (non-zero, checksum-failing) slot lowers
the score by exactly 0.5. -/
theorem score_slot_delta :
    (∀ (bufA bufB : List Nat) (off j : Nat) (d : PK6),
        bufA.length = bufB.length → j < totalSlots →
        off + j * XY.SLOT_SIZE + XY.SLOT_SIZE ≤ bufA.length →
        (∀ i, i < totalSlots → i ≠ j → sliceAt bufA off i = sliceAt bufB off i) →
        isAllZero (sliceAt bufA off j) = true →
        isAllZero (sliceAt bufB off j) = false →
        decodePK6 (sliceAt bufB off j) = some d →
        d.checksumOK = true → 1 ≤ d.species → d.species ≤ 721 → d.shiny = false →
        (scoreXYRegion bufB off).score = (scoreXYRegion bufA off).score + 3) ∧
    (∀ (bufA bufC : List Nat) (off j : Nat),
        bufA.length = bufC.length → j < totalSlots →
        off + j * XY.SLOT_SIZE + XY.SLOT_SIZE ≤ bufA.length →
        (∀ i, i < totalSlots → i ≠ j → sliceAt bufA off i = sliceAt bufC off i) →
        isAllZero (sliceAt bufA off j) = true →
        isAllZero (sliceAt bufC off j) = false →
        (∀ d, decodePK6 (sliceAt bufC off j) = some d → d.checksumOK = false) →
        (scoreXYRegion bufC off).score = (scoreXYRegion bufA off).score - 0.5) := by
  constructor
  · intro bufA bufB off j d hlen hj hin hag hzA hzB hd hck hs1 hs2 hsh
    refine score_delta_core bufA bufB off j 3 hlen hj hin hag hzA
      (fun c =>
        { c with
          ok := c.ok + 1
          shinyCount := c.shinyCount + (if d.shiny then 1 else 0)
          plausibleSpecies := c.plausibleSpecies +
            (if 1 ≤ d.species ∧ d.species ≤ 721 then 1 else 0) })
      (fun fuel c => scoreXYGo_ok_step bufB off fuel j c d hj (by omega) hzB hd hck) ?_
    intro c
    simp only [scRat, hsh, Bool.false_eq_true, if_false, if_pos (And.intro hs1 hs2)]
    push_cast
    ring
  · intro bufA bufC off j hlen hj hin hag hzA hzC hbad
    obtain ⟨d, hd⟩ := decodePK6_some (sliceAt bufC off j)
      (by rw [sliceAt_length bufC off j (by omega)])
    have e := score_delta_core bufA bufC off j (-0.5) hlen hj hin hag hzA
      (fun c => { c with bad := c.bad + 1 })
      (fun fuel c => scoreXYGo_bad_step bufC off fuel j c d hj (by omega) hzC hd (hbad d hd))
      (fun c => by rw [scRat_bad]; ring)
    rw [e]
    ring

theorem plainPayload_length : plainPayload.length = 224 := by
  simp [plainPayload]

theorem vSlot_length : vSlot.length = 232 := by
  rw [vSlot, List.length_append, decrypt224_length, plainPayload_length]
  rfl

theorem gSlot_length : gSlot.length = 232 := by
  simp [gSlot]

theorem sliceAt_past (buf : List Nat) (off i : Nat)
    (h : buf.length ≤ off + i * XY.SLOT_SIZE) : sliceAt buf off i = [] := by
  rw [sliceAt, List.drop_eq_nil_of_le h, List.take_nil]

theorem bufB0_length : (vSlot ++ List.replicate 232 0).length = 464 := by
  rw [List.length_append, vSlot_length]
  rfl

/-- Away from slot 0, the all-zero blob and the one-valid-record blob of
the C2 instance have identical slices. -/
theorem cex2_slices : ∀ i, i < totalSlots → i ≠ 0 →
    sliceAt (List.replicate 464 0) 0 i = sliceAt (vSlot ++ List.replicate 232 0) 0 i := by
  intro i h1 h2
  rcases (by omega : i = 1 ∨ 2 ≤ i) with h | h
  · subst h
    have e1 : 0 + 1 * XY.SLOT_SIZE = 232 := by simp [XY.SLOT_SIZE]
    rw [sliceAt, sliceAt, e1, List.drop_left' vSlot_length]
    simp [XY.SLOT_SIZE]
  · rw [sliceAt_past _ _ _ (by simp only [XY.SLOT_SIZE, List.length_replicate]; omega),
      sliceAt_past _ _ _ (by simp only [XY.SLOT_SIZE]; rw [bufB0_length]; omega)]

theorem any_ne_eq_not_isAllZero (l : List Nat) :
    l.any (fun x => x != 0) = !(isAllZero l) := by
  induction l with
  | nil => rfl
  | cons a t ih =>
    simp only [isAllZero, bne] at ih ⊢
    simp only [List.any_cons, List.all_cons, Bool.not_and]
    rw [ih]

set_option maxRecDepth 40000 in
/-- Witness for C2 (amended): a two-slot-sized blob, slot 0 changed from
all-zero to the synthetic valid record, score goes from -464 to -461. -/
theorem score_slot_delta_witness :
    (scoreXYRegion (vSlot ++ List.replicate 232 0) 0).score =
      (scoreXYRegion (List.replicate 464 0) 0).score + 3 := by
  exact score_slot_delta.1 (List.replicate 464 0) (vSlot ++ List.replicate 232 0) 0 0
    { checksumOK := true, species := 25, nature := 0, pid := 17, tid := 0, sid := 0,
      shiny := false } (by rw [bufB0_length]; simp) (by decide)
    (by simp [XY.SLOT_SIZE]) cex2_slices (by decide) (by decide)
    (by decide) rfl (by decide) (by decide) rfl

set_option maxRecDepth 40000 in
/-- C2 counterexample: the same slot change as the witness, but the score
increase is not the claimed 2.0 (it is 3.0: the record is valid, plausible
and non-rare, and the formula pays 2.0 + 1.0 for it). -/
theorem score_slot_delta_counterexample :
    isAllZero (sliceAt (List.replicate 464 0) 0 0) = true ∧
      decodePK6 (sliceAt (vSlot ++ List.replicate 232 0) 0 0) =
        some { checksumOK := true, species := 25, nature := 0, pid := 17, tid := 0,
               sid := 0, shiny := false } ∧
      (∀ i, i < totalSlots → i ≠ 0 →
        sliceAt (List.replicate 464 0) 0 i = sliceAt (vSlot ++ List.replicate 232 0) 0 i) ∧
      ¬ (scoreXYRegion (vSlot ++ List.replicate 232 0) 0).score =
          (scoreXYRegion (List.replicate 464 0) 0).score + 2 := by
  have hA : scoreXYGo (List.replicate 464 0) 0 totalSlots 0 ⟨0, 0, 0, 0, 0⟩ =
      ⟨0, 2, 928, 0, 0⟩ := by decide
  have hB : scoreXYGo (vSlot ++ List.replicate 232 0) 0 totalSlots 0 ⟨0, 0, 0, 0, 0⟩ =
      ⟨1, 1, 928, 0, 1⟩ := by decide
  have hsA : (scoreXYRegion (List.replicate 464 0) 0).score = -464 := by
    show scRat (scoreXYGo (List.replicate 464 0) 0 totalSlots 0 ⟨0, 0, 0, 0, 0⟩) = -464
    rw [hA]
    norm_num [scRat]
  have hsB : (scoreXYRegion (vSlot ++ List.replicate 232 0) 0).score = -461 := by
    show scRat (scoreXYGo (vSlot ++ List.replicate 232 0) 0 totalSlots 0 ⟨0, 0, 0, 0, 0⟩) =
      -461
    rw [hB]
    norm_num [scRat]
  refine ⟨by decide, by decide, cex2_slices, ?_⟩
  rw [hsA, hsB]
  norm_num

/-- C6. An in-range slot steps the full scorer's `zeros` counter, and is
shown empty by the box assembler, exactly when its 232-byte slice is all
zero; the all-zero branch leaves `bad` (and every other counter)
untouched, and a non-zero slot never touches `zeros`. -/
theorem empty_iff_allzero (buf : List Nat) (off fuel i : Nat) (c : XYCounts)
    (hi : i < totalSlots) (hin : off + i * XY.SLOT_SIZE + XY.SLOT_SIZE ≤ buf.length) :
    (isAllZero (sliceAt buf off i) = true →
        scoreXYGo buf off (fuel + 1) i c =
          scoreXYGo buf off fuel (i + 1) { c with zeros := c.zeros + 1 } ∧
        slotView buf off (i / XY.SLOTS_PER_BOX) (i % XY.SLOTS_PER_BOX) =
          MonView.emptySlot (i % XY.SLOTS_PER_BOX + 1)) ∧
      (isAllZero (sliceAt buf off i) = false →
        ∃ c', scoreXYGo buf off (fuel + 1) i c = scoreXYGo buf off fuel (i + 1) c' ∧
          c'.zeros = c.zeros) := by
  have hidx : i / XY.SLOTS_PER_BOX * XY.SLOTS_PER_BOX + i % XY.SLOTS_PER_BOX = i := by
    simp only [XY.SLOTS_PER_BOX]
    omega
  constructor
  · intro hz
    refine ⟨scoreXYGo_zero_step buf off fuel i c hi hin hz, ?_⟩
    rw [slotView]
    simp only [hidx]
    rw [if_neg (by omega)]
    have hany : (sliceAt buf off i).any (fun x => x != 0) = false := by
      rw [any_ne_eq_not_isAllZero, hz]
      rfl
    simp only [hany, Bool.false_eq_true, if_false]
  · intro hz
    obtain ⟨d, hd⟩ := decodePK6_some (sliceAt buf off i)
      (by rw [sliceAt_length buf off i hin])
    cases h4 : d.checksumOK with
    | true =>
      exact ⟨_, scoreXYGo_ok_step buf off fuel i c d hi hin hz hd h4, rfl⟩
    | false =>
      exact ⟨_, scoreXYGo_bad_step buf off fuel i c d hi hin hz hd h4, rfl⟩

/-- Witness for C6 at the all-zero one-slot blob. -/
theorem empty_iff_allzero_witness :
    scoreXYGo (List.replicate 232 0) 0 (929 + 1) 0 ⟨0, 0, 0, 0, 0⟩ =
      scoreXYGo (List.replicate 232 0) 0 929 (0 + 1)
        { (⟨0, 0, 0, 0, 0⟩ : XYCounts) with zeros := (⟨0, 0, 0, 0, 0⟩ : XYCounts).zeros + 1 } ∧
      slotView (List.replicate 232 0) 0 (0 / XY.SLOTS_PER_BOX) (0 % XY.SLOTS_PER_BOX) =
        MonView.emptySlot (0 % XY.SLOTS_PER_BOX + 1) :=
  (empty_iff_allzero (List.replicate 232 0) 0 929 0 ⟨0, 0, 0, 0, 0⟩ (by decide)
    (by decide)).1 (by decide)

/-- Every slot is classified exactly once: the final `ok + zeros + bad`
always accounts for all `totalSlots - i` remaining slots (out-of-bounds
slots land in `bad`). -/
theorem scoreXYGo_counts (buf : List Nat) (off : Nat) :
    ∀ (fuel i : Nat) (c : XYCounts), totalSlots ≤ fuel + i →
      (scoreXYGo buf off fuel i c).ok + (scoreXYGo buf off fuel i c).zeros +
          (scoreXYGo buf off fuel i c).bad =
        c.ok + c.zeros + c.bad + (totalSlots - i) := by
  intro fuel
  induction fuel with
  | zero =>
    intro i c h
    show c.ok + c.zeros + c.bad = c.ok + c.zeros + c.bad + (totalSlots - i)
    omega
  | succ fuel ih =>
    intro i c hfi
    by_cases h1 : i < totalSlots
    · by_cases h2 : off + i * XY.SLOT_SIZE + XY.SLOT_SIZE ≤ buf.length
      · by_cases h3 : isAllZero (sliceAt buf off i)
        · rw [scoreXYGo_zero_step buf off fuel i c h1 h2 h3]
          have h := ih (i + 1) { c with zeros := c.zeros + 1 } (by omega)
          dsimp only at h ⊢
          omega
        · have h3' : isAllZero (sliceAt buf off i) = false := by
            simp only [Bool.not_eq_true] at h3
            exact h3
          obtain ⟨d, hd⟩ := decodePK6_some (sliceAt buf off i)
            (by rw [sliceAt_length buf off i h2])
          cases h4 : d.checksumOK with
          | true =>
            rw [scoreXYGo_ok_step buf off fuel i c d h1 h2 h3' hd h4]
            have h := ih (i + 1)
              { c with
                ok := c.ok + 1
                shinyCount := c.shinyCount + (if d.shiny then 1 else 0)
                plausibleSpecies := c.plausibleSpecies +
                  (if 1 ≤ d.species ∧ d.species ≤ 721 then 1 else 0) } (by omega)
            dsimp only at h ⊢
            omega
          | false =>
            rw [scoreXYGo_bad_step buf off fuel i c d h1 h2 h3' hd h4]
            have h := ih (i + 1) { c with bad := c.bad + 1 } (by omega)
            dsimp only at h ⊢
            omega
      · rw [scoreXYGo_oob buf off fuel i c h1 (by omega)]
        dsimp only
        omega
    · rw [scoreXYGo_done buf off fuel i c h1]
      omega

/-- C7 (amended). An offset whose region lies entirely past the end of the
blob (even its first slot is out of range) scores exactly -465, which is
strictly below the score of any offset with at least one valid slot. -/
theorem oob_scoring (buf : List Nat) (off1 off2 : Nat)
    (h1 : buf.length < off1 + XY.SLOT_SIZE)
    (h2 : 1 ≤ (scoreXYRegion buf off2).ok) :
    (scoreXYRegion buf off1).score = -465 ∧
      (scoreXYRegion buf off1).score < (scoreXYRegion buf off2).score := by
  have e : scoreXYGo buf off1 totalSlots 0 ⟨0, 0, 0, 0, 0⟩ =
      { (⟨0, 0, 0, 0, 0⟩ : XYCounts) with bad := 0 + (totalSlots - 0) } := by
    show scoreXYGo buf off1 (929 + 1) 0 ⟨0, 0, 0, 0, 0⟩ = _
    exact scoreXYGo_oob buf off1 929 0 ⟨0, 0, 0, 0, 0⟩ (by decide) (by omega)
  have hs1 : (scoreXYRegion buf off1).score = -465 := by
    show scRat (scoreXYGo buf off1 totalSlots 0 ⟨0, 0, 0, 0, 0⟩) = -465
    rw [e]
    norm_num [scRat, totalSlots, XY.BOXES, XY.SLOTS_PER_BOX]
  refine ⟨hs1, ?_⟩
  rw [hs1]
  have hc := scoreXYGo_counts buf off2 totalSlots 0 ⟨0, 0, 0, 0, 0⟩ (by omega)
  have hc' : (scoreXYGo buf off2 totalSlots 0 ⟨0, 0, 0, 0, 0⟩).ok +
      (scoreXYGo buf off2 totalSlots 0 ⟨0, 0, 0, 0, 0⟩).zeros +
      (scoreXYGo buf off2 totalSlots 0 ⟨0, 0, 0, 0, 0⟩).bad = 930 := by
    rw [hc]
    norm_num [totalSlots, XY.BOXES, XY.SLOTS_PER_BOX]
  have h2' : 1 ≤ (scoreXYGo buf off2 totalSlots 0 ⟨0, 0, 0, 0, 0⟩).ok := h2
  show (-465 : ℚ) < scRat (scoreXYGo buf off2 totalSlots 0 ⟨0, 0, 0, 0, 0⟩)
  rw [scRat]
  have hokQ : (1 : ℚ) ≤ (scoreXYGo buf off2 totalSlots 0 ⟨0, 0, 0, 0, 0⟩).ok := by
    exact_mod_cast h2'
  have hsumQ : ((scoreXYGo buf off2 totalSlots 0 ⟨0, 0, 0, 0, 0⟩).ok : ℚ) +
      (scoreXYGo buf off2 totalSlots 0 ⟨0, 0, 0, 0, 0⟩).zeros +
      (scoreXYGo buf off2 totalSlots 0 ⟨0, 0, 0, 0, 0⟩).bad = 930 := by
    exact_mod_cast hc'
  have hz : (0 : ℚ) ≤ (scoreXYGo buf off2 totalSlots 0 ⟨0, 0, 0, 0, 0⟩).zeros :=
    Nat.cast_nonneg _
  have hp : (0 : ℚ) ≤ (scoreXYGo buf off2 totalSlots 0 ⟨0, 0, 0, 0, 0⟩).plausibleSpecies :=
    Nat.cast_nonneg _
  have hsh : (0 : ℚ) ≤ (scoreXYGo buf off2 totalSlots 0 ⟨0, 0, 0, 0, 0⟩).shinyCount :=
    Nat.cast_nonneg _
  nlinarith

set_option maxRecDepth 40000 in
/-- Witness for C7 (amended) on a one-slot blob holding the synthetic
valid record: offset 1 is fully out of range, offset 0 has one valid slot. -/
theorem oob_scoring_witness :
    (scoreXYRegion vSlot 1).score = -465 ∧
      (scoreXYRegion vSlot 1).score < (scoreXYRegion vSlot 0).score :=
  oob_scoring vSlot 1 0 (by decide) (by decide)

/-! ### The boundary counterexample blob -/

theorem drop_append_left (A B : List Nat) (n : Nat) :
    (A ++ B).drop (A.length + n) = B.drop n := by
  rw [← List.drop_drop, List.drop_left]

theorem flatten_replicate_length (n : Nat) (g : List Nat) :
    ((List.replicate n g).flatten).length = n * g.length := by
  simp [List.length_flatten, List.map_replicate, List.sum_replicate, smul_eq_mul]

theorem cexBuf_length : cexBuf.length = 216224 := by
  rw [cexBuf, List.length_append, List.length_append, List.length_append,
    flatten_replicate_length, vSlot_length, gSlot_length]

theorem flatten_replicate_slice (g rest : List Nat) (hg : g.length = 232) :
    ∀ n k, k < n →
      (((List.replicate n g).flatten ++ rest).drop (k * 232)).take 232 = g := by
  intro n
  induction n with
  | zero => intro k hk; exact absurd hk (Nat.not_lt_zero k)
  | succ n ih =>
    intro k hk
    rw [List.replicate_succ, List.flatten_cons, List.append_assoc]
    cases k with
    | zero => rw [Nat.zero_mul, List.drop_zero, List.take_left' hg]
    | succ k =>
      have e : (k + 1) * 232 = g.length + k * 232 := by rw [hg]; ring
      rw [e, drop_append_left]
      exact ih k (by omega)

theorem cexBuf_slice0 : sliceAt cexBuf 0 0 = vSlot := by
  rw [sliceAt, cexBuf]
  simp only [XY.SLOT_SIZE]
  rw [show 0 + 0 * 232 = 0 from rfl, List.drop_zero, List.append_assoc,
    List.take_left' vSlot_length]

theorem cexBuf_sliceG (i : Nat) (h1 : 1 ≤ i) (h2 : i < totalSlots) :
    sliceAt cexBuf 0 i = gSlot := by
  rw [sliceAt, cexBuf]
  simp only [XY.SLOT_SIZE]
  have e : 0 + i * 232 = vSlot.length + (i - 1) * 232 := by
    rw [vSlot_length]
    omega
  rw [e, List.append_assoc, drop_append_left]
  refine flatten_replicate_slice gSlot (vSlot ++ vSlot) gSlot_length 929 (i - 1) ?_
  simp only [totalSlots, XY.BOXES, XY.SLOTS_PER_BOX] at h2
  omega

theorem cexBuf_slice760 (k : Nat) (hk : k < 2) : sliceAt cexBuf 215760 k = vSlot := by
  rw [sliceAt, cexBuf]
  simp only [XY.SLOT_SIZE]
  have hA : (vSlot ++ (List.replicate 929 gSlot).flatten).length = 215760 := by
    rw [List.length_append, vSlot_length, flatten_replicate_length, gSlot_length]
  have e : 215760 + k * 232 =
      (vSlot ++ (List.replicate 929 gSlot).flatten).length + k * 232 := by rw [hA]
  rw [e, drop_append_left]
  rcases (by omega : k = 0 ∨ k = 1) with h | h
  · subst h
    rw [Nat.zero_mul, List.drop_zero, List.take_left' vSlot_length]
  · subst h
    have e1 : 1 * 232 = vSlot.length + 0 := by rw [vSlot_length]
    rw [e1, drop_append_left, List.drop_zero,
      List.take_of_length_le (by rw [vSlot_length])]

theorem decode_vSlot : decodePK6 vSlot = some vRec := by decide

theorem vSlot_nonzero : isAllZero vSlot = false := by decide

theorem gSlot_nonzero : isAllZero gSlot = false := by decide

theorem decode_gSlot_bad : ∀ d, decodePK6 gSlot = some d → d.checksumOK = false := by
  intro d hd
  have h : (decodePK6 gSlot).map (fun r => r.checksumOK) = some false := by decide
  rw [hd] at h
  simpa using h

/-- A run of identical in-range garbage slots adds one `bad` per slot. -/
theorem scoreXYGo_const_bad (buf : List Nat) (off : Nat) (g : List Nat)
    (hgz : isAllZero g = false)
    (hgbad : ∀ d, decodePK6 g = some d → d.checksumOK = false)
    (hglen : XY.SLOT_SIZE ≤ g.length) :
    ∀ (k fuel i : Nat) (c : XYCounts), i + k = totalSlots → k ≤ fuel →
      (∀ i', i ≤ i' → i' < totalSlots → sliceAt buf off i' = g) →
      (∀ i', i ≤ i' → i' < totalSlots →
        off + i' * XY.SLOT_SIZE + XY.SLOT_SIZE ≤ buf.length) →
      scoreXYGo buf off fuel i c = { c with bad := c.bad + k } := by
  intro k
  induction k with
  | zero =>
    intro fuel i c hik _ _ _
    have hi : ¬ i < totalSlots := by omega
    cases fuel with
    | zero => show c = { c with bad := c.bad + 0 }; rfl
    | succ fuel => rw [scoreXYGo_done buf off fuel i c hi]; rfl
  | succ k ih =>
    intro fuel i c hik hk hsl hin
    obtain ⟨f, rfl⟩ : ∃ f, fuel = f + 1 := ⟨fuel - 1, by omega⟩
    have h1 : i < totalSlots := by omega
    have hi : sliceAt buf off i = g := hsl i le_rfl h1
    obtain ⟨d, hd⟩ := decodePK6_some g hglen
    rw [scoreXYGo_bad_step buf off f i c d h1 (hin i le_rfl h1) (hi ▸ hgz) (hi ▸ hd)
      (hgbad d hd)]
    rw [ih f (i + 1) _ (by omega) (by omega) (fun i' h h' => hsl i' (by omega) h')
      (fun i' h h' => hin i' (by omega) h')]
    dsimp only
    congr 1
    omega

theorem cex7_run0 : scoreXYGo cexBuf 0 totalSlots 0 ⟨0, 0, 0, 0, 0⟩ =
    { ok := 1, zeros := 0, bad := 929, shinyCount := 0, plausibleSpecies := 1 } := by
  have hin0 : 0 + 0 * XY.SLOT_SIZE + XY.SLOT_SIZE ≤ cexBuf.length := by
    rw [cexBuf_length]
    simp [XY.SLOT_SIZE]
  show scoreXYGo cexBuf 0 (929 + 1) 0 ⟨0, 0, 0, 0, 0⟩ = _
  rw [scoreXYGo_ok_step cexBuf 0 929 0 ⟨0, 0, 0, 0, 0⟩ vRec (by decide) hin0
    (by rw [cexBuf_slice0]; exact vSlot_nonzero) (by rw [cexBuf_slice0]; exact decode_vSlot)
    rfl]
  rw [scoreXYGo_const_bad cexBuf 0 gSlot gSlot_nonzero decode_gSlot_bad
    (by rw [gSlot_length]; decide) 929 929 1 _ (by decide) le_rfl
    (fun i' h h' => cexBuf_sliceG i' h h')
    (fun i' h h' => by
      rw [cexBuf_length]
      simp only [totalSlots, XY.BOXES, XY.SLOTS_PER_BOX] at h'
      simp only [XY.SLOT_SIZE]
      omega)]
  decide

theorem cex7_run760 : scoreXYGo cexBuf 215760 totalSlots 0 ⟨0, 0, 0, 0, 0⟩ =
    { ok := 2, zeros := 0, bad := 928, shinyCount := 0, plausibleSpecies := 2 } := by
  have hin0 : 215760 + 0 * XY.SLOT_SIZE + XY.SLOT_SIZE ≤ cexBuf.length := by
    rw [cexBuf_length]
    simp [XY.SLOT_SIZE]
  have hin1 : 215760 + 1 * XY.SLOT_SIZE + XY.SLOT_SIZE ≤ cexBuf.length := by
    rw [cexBuf_length]
    simp [XY.SLOT_SIZE]
  show scoreXYGo cexBuf 215760 (929 + 1) 0 ⟨0, 0, 0, 0, 0⟩ = _
  rw [scoreXYGo_ok_step cexBuf 215760 929 0 ⟨0, 0, 0, 0, 0⟩ vRec (by decide) hin0
    (by rw [cexBuf_slice760 0 (by decide)]; exact vSlot_nonzero)
    (by rw [cexBuf_slice760 0 (by decide)]; exact decode_vSlot) rfl]
  show scoreXYGo cexBuf 215760 (928 + 1) 1 _ = _
  rw [scoreXYGo_ok_step cexBuf 215760 928 1 _ vRec (by decide) hin1
    (by rw [cexBuf_slice760 1 (by decide)]; exact vSlot_nonzero)
    (by rw [cexBuf_slice760 1 (by decide)]; exact decode_vSlot) rfl]
  show scoreXYGo cexBuf 215760 (927 + 1) 2 _ = _
  rw [scoreXYGo_oob cexBuf 215760 927 2 _ (by decide)
    (by rw [cexBuf_length]; simp [XY.SLOT_SIZE])]
  decide

/-- C7 counterexample: on `cexBuf`, the region at offset 215760 runs past
the end of the blob yet scores -458, strictly above the fully in-bounds
offset 0, which has one valid slot but scores -461.5. -/
theorem oob_scoring_counterexample :
    cexBuf.length = 216224 ∧
      cexBuf.length < 215760 + totalSlots * XY.SLOT_SIZE ∧
      0 + totalSlots * XY.SLOT_SIZE ≤ cexBuf.length ∧
      1 ≤ (scoreXYRegion cexBuf 0).ok ∧
      (scoreXYRegion cexBuf 0).score < (scoreXYRegion cexBuf 215760).score := by
  refine ⟨cexBuf_length, ?_, ?_, ?_, ?_⟩
  · rw [cexBuf_length]
    simp [totalSlots, XY.BOXES, XY.SLOTS_PER_BOX, XY.SLOT_SIZE]
  · rw [cexBuf_length]
    simp [totalSlots, XY.BOXES, XY.SLOTS_PER_BOX, XY.SLOT_SIZE]
  · rw [scoreXYRegion_ok, cex7_run0]
  · rw [scoreXYRegion_score, scoreXYRegion_score, cex7_run0, cex7_run760]
    norm_num [scRat]

/-! ### Box assembler: plausibility filter and totality -/

/-- The boxes `readBoxes` returns with an override offset are a nonempty
prefix of the untrimmed 31-box grid. -/
theorem readBoxes_boxes_take (buf : List Nat) (off : Nat) :
    ∃ k, 1 ≤ k ∧ (readBoxes buf (some off)).boxes = (buildBoxes buf off).take k := by
  simp only [readBoxes, findBoxRegionOffset]
  split
  · exact ⟨_, by omega, rfl⟩
  · exact ⟨1, le_rfl, rfl⟩

theorem buildBoxes_length (buf : List Nat) (off : Nat) :
    (buildBoxes buf off).length = XY.BOXES := by
  simp [buildBoxes]

theorem mem_buildBoxes (buf : List Nat) (off : Nat) (bx : BoxView)
    (h : bx ∈ buildBoxes buf off) :
    ∃ b', bx.mons = (List.range XY.SLOTS_PER_BOX).map (slotView buf off b') := by
  obtain ⟨b', _, rfl⟩ := List.mem_map.mp h
  exact ⟨b', rfl⟩

/-- C4. The box assembler reports a slot as present only if the decoded
record passes the plausibility filter (`checksumOK`, species in 1..721,
nonzero pid); every slot failing the filter — including checksum-passing
garbage with an implausible species or zero pid — is reported as an empty
slot; and every box `readBoxes` returns is built from exactly these slot
views. -/
theorem boxview_plausibility_filter (buf : List Nat) (off b s : Nat) :
    (∀ sl sp nat sh pid tid sid ck,
        slotView buf off b s = MonView.mon sl sp nat sh pid tid sid ck →
        ∃ d, decodePK6 (sliceAt buf off (b * XY.SLOTS_PER_BOX + s)) = some d ∧
          d.checksumOK = true ∧ 1 ≤ d.species ∧ d.species ≤ 721 ∧ d.pid ≠ 0 ∧
          sp = d.species ∧ pid = d.pid) ∧
    (isValidMon (decodePK6 (sliceAt buf off (b * XY.SLOTS_PER_BOX + s))) = false →
        slotView buf off b s = MonView.emptySlot (s + 1)) ∧
    (∀ bx, bx ∈ (readBoxes buf (some off)).boxes →
        ∃ b', bx.mons = (List.range XY.SLOTS_PER_BOX).map (slotView buf off b')) := by
  refine ⟨?_, ?_, ?_⟩
  · intro sl sp nat sh pid tid sid ck h
    simp only [slotView] at h
    by_cases h1 : off + (b * XY.SLOTS_PER_BOX + s) * XY.SLOT_SIZE + XY.SLOT_SIZE >
        buf.length
    · rw [if_pos h1] at h
      exact absurd h (by simp)
    · rw [if_neg h1] at h
      cases h2 : (sliceAt buf off (b * XY.SLOTS_PER_BOX + s)).any (fun x => x != 0) with
      | false => rw [h2] at h; exact absurd h (by simp)
      | true =>
        rw [h2] at h
        simp only [if_true] at h
        cases hd : decodePK6 (sliceAt buf off (b * XY.SLOTS_PER_BOX + s)) with
        | none => rw [hd] at h; exact absurd h (by simp)
        | some d =>
          rw [hd] at h
          simp only [] at h
          cases hv : isValidMon (some d) with
          | false => rw [hv] at h; exact absurd h (by simp)
          | true =>
            rw [hv] at h
            simp only [if_true, MonView.mon.injEq] at h
            obtain ⟨-, hsp, -, -, hpid, -, -, -⟩ := h
            have hv' := hv
            simp only [isValidMon, Bool.and_eq_true, decide_eq_true_eq] at hv'
            exact ⟨d, rfl, hv'.1.1.1, hv'.1.1.2, hv'.1.2, hv'.2, hsp.symm, hpid.symm⟩
  · intro hv
    simp only [slotView]
    by_cases h1 : off + (b * XY.SLOTS_PER_BOX + s) * XY.SLOT_SIZE + XY.SLOT_SIZE >
        buf.length
    · rw [if_pos h1]
    · rw [if_neg h1]
      cases h2 : (sliceAt buf off (b * XY.SLOTS_PER_BOX + s)).any (fun x => x != 0) with
      | false => simp
      | true =>
        simp only [if_true]
        cases hd : decodePK6 (sliceAt buf off (b * XY.SLOTS_PER_BOX + s)) with
        | none => simp
        | some d =>
          rw [hd] at hv
          simp only [hv]
          simp
  · intro bx hbx
    obtain ⟨k, -, hk⟩ := readBoxes_boxes_take buf off
    rw [hk] at hbx
    exact mem_buildBoxes buf off bx (List.take_subset k _ hbx)

set_option maxRecDepth 40000 in
/-- Witness for C4: the garbage slot decodes but fails the filter, and the
assembler reports it empty. -/
theorem boxview_plausibility_filter_witness :
    slotView gSlot 0 0 0 = MonView.emptySlot (0 + 1) :=
  (boxview_plausibility_filter gSlot 0 0 0).2.1 (by decide)

/-- C10. The box assembler is total: any slot whose 232-byte range runs
past the end of the blob is reported as an empty slot rather than a fault,
and for every blob and override offset `readBoxes` returns a grid of at
least one and at most 31 boxes, each of exactly 30 slot entries. -/
theorem readboxes_total (buf : List Nat) (off : Nat) :
    (∀ b s, buf.length < off + (b * XY.SLOTS_PER_BOX + s) * XY.SLOT_SIZE + XY.SLOT_SIZE →
        slotView buf off b s = MonView.emptySlot (s + 1)) ∧
    1 ≤ (readBoxes buf (some off)).boxes.length ∧
    (readBoxes buf (some off)).boxes.length ≤ XY.BOXES ∧
    ∀ bx ∈ (readBoxes buf (some off)).boxes, bx.mons.length = XY.SLOTS_PER_BOX := by
  obtain ⟨k, hk1, hk⟩ := readBoxes_boxes_take buf off
  have hlen : (readBoxes buf (some off)).boxes.length = min k XY.BOXES := by
    rw [hk, List.length_take, buildBoxes_length]
  refine ⟨?_, ?_, ?_, ?_⟩
  · intro b s h
    simp only [slotView]
    rw [if_pos (by omega)]
  · rw [hlen]
    simp only [XY.BOXES]
    omega
  · rw [hlen]
    omega
  · intro bx hbx
    rw [hk] at hbx
    obtain ⟨b', hb'⟩ := mem_buildBoxes buf off bx (List.take_subset k _ hbx)
    rw [hb']
    simp

/-- Witness for C10 on an empty blob: every slot range is out of bounds,
yet a one-box grid of 30 empty slots is returned. -/
theorem readboxes_total_witness :
    slotView ([] : List Nat) 7 0 0 = MonView.emptySlot (0 + 1) ∧
      1 ≤ (readBoxes ([] : List Nat) (some 7)).boxes.length := by
  refine ⟨(readboxes_total ([] : List Nat) 7).1 0 0 (by decide), ?_⟩
  exact (readboxes_total ([] : List Nat) 7).2.1

/-! ### Locator determinism -/

theorem refinedLe_trans (a b c : FullCand)
    (hab : refinedLe a b = true) (hbc : refinedLe b c = true) : refinedLe a c = true := by
  simp only [refinedLe, Bool.or_eq_true, Bool.and_eq_true, decide_eq_true_eq] at *
  rcases hab with h1 | ⟨h1, h1'⟩ <;> rcases hbc with h2 | ⟨h2, h2'⟩
  · exact Or.inl (h2.trans h1)
  · exact Or.inl (h2 ▸ h1)
  · exact Or.inl (h1 ▸ h2)
  · exact Or.inr ⟨h1.trans h2, h1'.trans h2'⟩

theorem refinedLe_total (a b : FullCand) : (refinedLe a b || refinedLe b a) = true := by
  simp only [refinedLe, Bool.or_eq_true, Bool.and_eq_true, decide_eq_true_eq]
  rcases lt_trichotomy a.full.score b.full.score with h | h | h
  · exact Or.inr (Or.inl h)
  · rcases Nat.le_total a.full.bad b.full.bad with hb | hb
    · exact Or.inl (Or.inr ⟨h, hb⟩)
    · exact Or.inr (Or.inr ⟨h.symm, hb⟩)
  · exact Or.inl (Or.inl h)

/-- C8. The locator is deterministic: on byte-identical blobs with
identical hints, autopick returns the same best candidate and the same
ranked top list (ties ordered identically), and the diagnostic scan
returns the same candidate list; moreover the ranked list is sorted by
score descending with ties broken by ascending bad count (the model's
`mergeSort` is the stable ES2019 `Array.prototype.sort`). -/
theorem autopick_deterministic (buf1 buf2 : List Nat) (hint1 hint2 : Int)
    (hb : buf1 = buf2) (hh : hint1 = hint2) :
    xyAutoPickOffsetFast buf1 hint1 = xyAutoPickOffsetFast buf2 hint2 ∧
      (xyAutoPickOffsetFast buf1 hint1).best = (xyAutoPickOffsetFast buf2 hint2).best ∧
      (xyAutoPickOffsetFast buf1 hint1).top = (xyAutoPickOffsetFast buf2 hint2).top ∧
      scanCandidates buf1 = scanCandidates buf2 ∧
      (xyAutoPickOffsetFast buf1 hint1).top.Pairwise (fun a b => refinedLe a b = true) := by
  subst hb
  subst hh
  refine ⟨rfl, rfl, rfl, rfl, ?_⟩
  simp only [xyAutoPickOffsetFast]
  exact List.Pairwise.sublist (List.take_sublist 10 _)
    (List.sorted_mergeSort refinedLe_trans refinedLe_total _)

/-- Witness for C8 at the empty blob and zero hint. -/
theorem autopick_deterministic_witness :
    xyAutoPickOffsetFast [] 0 = xyAutoPickOffsetFast [] 0 ∧
      (xyAutoPickOffsetFast [] 0).best = (xyAutoPickOffsetFast [] 0).best ∧
      (xyAutoPickOffsetFast [] 0).top = (xyAutoPickOffsetFast [] 0).top ∧
      scanCandidates [] = scanCandidates [] ∧
      (xyAutoPickOffsetFast [] 0).top.Pairwise (fun a b => refinedLe a b = true) :=
  autopick_deterministic [] [] 0 0 rfl rfl

end Gen6XY
